import Mathlib

/-!
Shallow embedding of the `google-meet-rec-mover` core
(`src/google_meet_rec_mover/cli.py`, plus the converted-path computation of
`src/google_meet_rec_mover/gdoc_converter.py`).

Modelling conventions:
* Filenames and paths are `String`s (the scanner works over the direct
  children of one source directory, and all checks in the code use
  `file_path.name` / `Path.suffix`, which depend only on the final name).
* `datetime(y, mo, d, h, mi)` is the record `DateTime`; the constructor's
  range validation (`ValueError` for out-of-range fields) is `ValidD`.
* `datetime.timestamp()` is modelled by `toMinutes`, the minute count of the
  proleptic Gregorian calendar (CPython's `_days_before_year` /
  `_days_before_month` arithmetic).  The real `timestamp()` is an affine,
  order-preserving function of this value, so every comparison made by the
  code is preserved.  (Timezone/DST quirks of POSIX timestamps are outside
  the model, as in the specification.)
* Regular-expression searches are modelled by explicit character-list
  matchers.  The two patterns used by the code have pairwise disjoint
  character classes at every backtracking point, so the deterministic
  greedy matchers below compute exactly `re.search` semantics.
* Python `\d` / `\s` / `str.lower` / `str.strip` are modelled on their
  ASCII behaviour (`Char.isDigit`, `Char.isWhitespace`, ASCII lowering);
  the filenames the tool is specified over only exercise that range, and
  `.` in the prefix pattern is modelled as any character (filenames do
  not contain newlines).
* Filesystem and network effects (`Path.rename`, `shutil.move`,
  `Path.unlink`, the Drive export) are modelled by a `MoveEnv` of outcome
  oracles: each effect either succeeds or raises, which is all the
  control flow of `move_to` observes.
-/

namespace GoogleMeetRecMover

/-- Membership test for a contiguous substring, the model of Python's
`needle in haystack` on strings (checked on character lists). -/
def isSubArr (needle : List Char) : List Char → Bool
  | [] => needle.isEmpty
  | c :: rest => needle.isPrefixOf (c :: rest) || isSubArr needle rest

/-- Python `needle in haystack` for strings. -/
def containsSub (haystack needle : String) : Bool :=
  isSubArr needle.data haystack.data

/-- ASCII lowering of one character, the fragment of Python `str.lower`
exercised by the code (non-ASCII characters are left unchanged). -/
def lowerChar (c : Char) : Char :=
  if c.toNat ≥ 65 ∧ c.toNat ≤ 90 then Char.ofNat (c.toNat + 32) else c

/-- Model of Python `str.lower`. -/
def lowerStr (s : String) : String :=
  String.mk (s.data.map lowerChar)

/-- Model of Python `str.strip`: drop leading and trailing whitespace. -/
def stripStr (s : String) : String :=
  String.mk (((s.data.dropWhile Char.isWhitespace).reverse.dropWhile
    Char.isWhitespace).reverse)

/-- Index of the last dot of a name, if any (Python `str.rfind`). -/
def lastDotIdx (cs : List Char) : Option Nat :=
  match cs.reverse.findIdx? (· == '.') with
  | none => none
  | some k => some (cs.length - 1 - k)

/-- Model of Python `pathlib.PurePath.suffix` on a file name: the final
extension including its dot, or `""` when the last dot is at position 0,
absent, or the final character. -/
def pathSuffix (name : String) : String :=
  match lastDotIdx name.data with
  | none => ""
  | some i =>
    if 0 < i ∧ i < name.data.length - 1 then String.mk (name.data.drop i) else ""

/-- The lower-cased suffix, the combination `path.suffix.lower()` used
throughout the code. -/
def suffixLower (name : String) : String :=
  lowerStr (pathSuffix name)

/-- Model of Python `pathlib.PurePath.with_suffix`: strip the current
suffix (if any) and append the new one. -/
def withSuffix (name suf : String) : String :=
  String.mk (name.data.take (name.data.length - (pathSuffix name).data.length))
    ++ suf

/-! ## Timestamp extraction

`RecordingSet.extract_date_from_prefix` searches the prefix for the
pattern `(\d{4})\s+(\d{2})\s+(\d{2})\s+(\d{2})[:/](\d{2})` and feeds the
captures to `datetime(...)`, mapping `ValueError` to an absent date. -/

/-- Read exactly `n` ASCII digits, returning their value and the rest
(the model of a `\d{n}` group). -/
def takeDigits : Nat → Nat → List Char → Option (Nat × List Char)
  | 0, acc, cs => some (acc, cs)
  | n + 1, acc, cs =>
    match cs with
    | [] => none
    | c :: rest =>
      if c.isDigit then takeDigits n (acc * 10 + (c.toNat - 48)) rest else none

/-- Require at least one whitespace character and skip the whole run
(the model of `\s+` when followed by a disjoint character class). -/
def skipWs1 : List Char → Option (List Char)
  | [] => none
  | c :: rest =>
    if c.isWhitespace then some (rest.dropWhile Char.isWhitespace) else none

/-- Attempt the date pattern anchored at the head of `cs`. -/
def matchDateAt (cs : List Char) : Option (Nat × Nat × Nat × Nat × Nat) :=
  match takeDigits 4 0 cs with
  | none => none
  | some (y, cs1) =>
    match skipWs1 cs1 with
    | none => none
    | some cs2 =>
      match takeDigits 2 0 cs2 with
      | none => none
      | some (mo, cs3) =>
        match skipWs1 cs3 with
        | none => none
        | some cs4 =>
          match takeDigits 2 0 cs4 with
          | none => none
          | some (d, cs5) =>
            match skipWs1 cs5 with
            | none => none
            | some cs6 =>
              match takeDigits 2 0 cs6 with
              | none => none
              | some (h, cs7) =>
                match cs7 with
                | [] => none
                | c :: rest =>
                  if c == ':' || c == '/' then
                    match takeDigits 2 0 rest with
                    | none => none
                    | some (mi, _) => some (y, mo, d, h, mi)
                  else none

/-- Leftmost match of the date pattern (the model of `re.search`). -/
def findDate : List Char → Option (Nat × Nat × Nat × Nat × Nat)
  | [] => none
  | c :: rest =>
    match matchDateAt (c :: rest) with
    | some v => some v
    | none => findDate rest

/-- The naive datetime value built by the code. -/
structure DateTime where
  year : Nat
  month : Nat
  day : Nat
  hour : Nat
  minute : Nat
deriving DecidableEq, Repr

/-- Gregorian leap-year test (CPython `datetime._is_leap`). -/
def isLeap (y : Nat) : Bool :=
  y % 4 == 0 && (y % 100 != 0 || y % 400 == 0)

/-- Days in a month of a given year (CPython `datetime._days_in_month`). -/
def daysInMonth (y m : Nat) : Nat :=
  if m = 2 then (if isLeap y then 29 else 28)
  else if m = 4 ∨ m = 6 ∨ m = 9 ∨ m = 11 then 30
  else 31

/-- Days in the year before the first of the given month
(CPython `datetime._days_before_month`). -/
def daysBeforeMonth (y : Nat) : Nat → Nat
  | 0 => 0
  | 1 => 0
  | m + 2 => daysBeforeMonth y (m + 1) + daysInMonth y (m + 1)

/-- Days before January 1st of the given year
(CPython `datetime._days_before_year`). -/
def daysBeforeYear (y : Nat) : Nat :=
  (y - 1) * 365 + (y - 1) / 4 - (y - 1) / 100 + (y - 1) / 400

/-- Proleptic-Gregorian day number of a date (CPython `toordinal`, with
January 1st of year 1 as day 0). -/
def dayNumber (dt : DateTime) : Nat :=
  daysBeforeYear dt.year + daysBeforeMonth dt.year dt.month + (dt.day - 1)

/-- Minute count of a datetime; an order-preserving affine image of
`datetime.timestamp()`. -/
def toMinutes (dt : DateTime) : Nat :=
  (dayNumber dt * 24 + dt.hour) * 60 + dt.minute

/-- Range validation performed by the `datetime` constructor; violating it
raises `ValueError`, which the code maps to an absent date. -/
def ValidD (dt : DateTime) : Prop :=
  1 ≤ dt.year ∧ dt.year ≤ 9999 ∧ 1 ≤ dt.month ∧ dt.month ≤ 12 ∧
    1 ≤ dt.day ∧ dt.day ≤ daysInMonth dt.year dt.month ∧
    dt.hour ≤ 23 ∧ dt.minute ≤ 59

instance (dt : DateTime) : Decidable (ValidD dt) := by
  unfold ValidD
  infer_instance

/-- Model of `RecordingSet.extract_date_from_prefix`: the first match of
the date pattern, validated by the `datetime` constructor. -/
def extractDate (pfx : String) : Option DateTime :=
  match findDate pfx.data with
  | none => none
  | some (y, mo, d, h, mi) =>
    if ValidD ⟨y, mo, d, h, mi⟩ then some ⟨y, mo, d, h, mi⟩ else none

example : extractDate "2024 05 01 10:30" = some ⟨2024, 5, 1, 10, 30⟩ := by
  decide

example : extractDate "2024 05 01 10/30" = some ⟨2024, 5, 1, 10, 30⟩ := by
  decide

example : extractDate "2024 13 01 10:30" = none := by decide

example : suffixLower "A～Recording.MP4" = ".mp4" := by decide

example : withSuffix "a.gdoc" ".docx" = "a.docx" := by decide

/-! ## Recording sets, prefix extraction and grouping -/

/-- The `RecordingSet` data: one session's artifacts.  The constructor's
date extraction (`extract_date_from_prefix` when no date is supplied) is
applied at every construction site of the scanner, so `date` is always
`extractDate prefix_` for scanner-built sets. -/
structure RecordingSet where
  prefix_ : String
  video_path : Option String
  transcript_path : Option String
  chat_path : Option String
  date : Option DateTime
deriving DecidableEq, Repr

/-- Model of `RecordingScanner._extract_prefix`: the regex
`(.+?)(?:～Recording|～Chat)` searched over the filename.  The lazy group
makes the match the text before the leftmost marker occurrence at an index
of at least 1; the result is stripped. -/
def markerAt (cs : List Char) : Bool :=
  "～Recording".data.isPrefixOf cs || "～Chat".data.isPrefixOf cs

/-- Least index `i ≥ 1` at which a marker starts. -/
def findMarkerAux : List Char → Nat → Option Nat
  | [], _ => none
  | c :: rest, i =>
    if 1 ≤ i && markerAt (c :: rest) then some i
    else findMarkerAux rest (i + 1)

/-- Prefix extraction; `none` when neither marker occurs after at least
one character. -/
def extractPrefix (name : String) : Option String :=
  match findMarkerAux name.data 0 with
  | none => none
  | some i => some (stripStr (String.mk (name.data.take i)))

example : extractPrefix "Session A～Recording.mp4" = some "Session A" := by
  decide

example : extractPrefix "Notes.gdoc" = none := by decide

/-- Accumulator for the three role variables of
`RecordingScanner._group_files_into_sets`. -/
structure RoleAcc where
  video : Option String
  transcript : Option String
  chat : Option String
deriving DecidableEq, Repr

/-- One iteration of the classification loop: a file whose name contains
the prefix is assigned the first matching role, overwriting any earlier
assignment of that role (last seen wins). -/
def classifyStep (pfx : String) (acc : RoleAcc) (name : String) : RoleAcc :=
  if containsSub name pfx then
    if suffixLower name == ".mp4" || containsSub name "Recording" then
      { acc with video := some name }
    else if suffixLower name == ".gdoc" || containsSub name "Gemini によるメモ" then
      { acc with transcript := some name }
    else if (suffixLower name == ".txt" && containsSub (lowerStr name) "chat")
        || containsSub name "Chat" then
      { acc with chat := some name }
    else acc
  else acc

/-- The classification loop over all scanned files for one prefix. -/
def classifyGroup (pfx : String) (files : List String) : RoleAcc :=
  files.foldl (classifyStep pfx) ⟨none, none, none⟩

/-- The `RecordingSet(...)` construction performed per prefix (its
constructor runs `extract_date_from_prefix`). -/
def mkRecordingSet (files : List String) (pfx : String) : RecordingSet :=
  let acc := classifyGroup pfx files
  ⟨pfx, acc.video, acc.transcript, acc.chat, extractDate pfx⟩

/-- Model of `RecordingSet.is_complete`. -/
def isComplete (s : RecordingSet) : Bool :=
  s.video_path.isSome

/-- Model of `RecordingScanner._group_files_into_sets`.  The Python
`prefixes` value is a hash set whose iteration order is unspecified; the
model fixes the deduplicated extraction order (`List.dedup`).  Every claim
proved below is insensitive to that order. -/
def groupFiles (files : List String) : List RecordingSet :=
  let prefixes := ((files.filterMap extractPrefix).filter (· ≠ "")).dedup
  (prefixes.map (mkRecordingSet files)).filter isComplete

/-! ## The sort of `RecordingScanner.scan`

`recording_sets.sort(key=lambda x: (-(x.date.timestamp() if x.date else
float("-inf")), x.prefix))`: ascending stable sort on the pair of the
negated timestamp (missing dates become `+inf` after negation) and the
prefix. -/

/-- First key component: `some k` is the finite float `-timestamp`,
`none` stands for `+inf` (the negation of `float("-inf")`). -/
def keyFst (s : RecordingSet) : Option Int :=
  match s.date with
  | some d => some (-(toMinutes d : Int))
  | none => none

/-- Strict order on the first key component (`none` is `+inf`). -/
def fstLt : Option Int → Option Int → Prop
  | some x, some y => x < y
  | some _, none => True
  | none, _ => False

instance : DecidableRel fstLt
  | some x, some y => inferInstanceAs (Decidable (x < y))
  | some _, none => isTrue trivial
  | none, some _ => isFalse (fun h => h)
  | none, none => isFalse (fun h => h)

/-- The non-strict comparison the ascending sort establishes between the
tuple keys `(-timestamp-or-inf, prefix)`. -/
def keyLe (s t : RecordingSet) : Prop :=
  fstLt (keyFst s) (keyFst t) ∨ (keyFst s = keyFst t ∧ s.prefix_ ≤ t.prefix_)

instance : DecidableRel keyLe := fun s t => by
  unfold keyLe
  infer_instance

/-- Model of `RecordingScanner.scan` on an existing source directory:
group, then sort by the tuple key.  `scan` takes `none` when
`source_dir.exists()` is false, in which case the code logs an error and
returns the empty list. -/
def scan (dir : Option (List String)) : List RecordingSet :=
  match dir with
  | none => []
  | some files => List.insertionSort keyLe (groupFiles files)

/-! ## The move pipeline (`RecordingSet.move_to` and its steps) -/

/-- Outcome oracles for the external effects of the pipeline:
`renameOk` — the `Path.rename` of `ensure_video_extension`;
`convertOk` — the whole converter round trip of
`convert_transcript_to_docx` (file-id extraction, Drive export and the
final `docx_path.exists()` check); `moveOk p` — the `shutil.move` of the
member whose source path is `p`; `unlinkOk` — the final
`original_gdoc_path.unlink()`. -/
structure MoveEnv where
  renameOk : Bool
  convertOk : Bool
  moveOk : String → Bool
  unlinkOk : Bool

/-- Model of `RecordingSet.ensure_video_extension`: add `.mp4` when the
suffix differs, keeping the original reference when the rename raises. -/
def ensureVideoExtension (env : MoveEnv) (s : RecordingSet) : RecordingSet :=
  match s.video_path with
  | none => s
  | some v =>
    if suffixLower v == ".mp4" then s
    else if env.renameOk then { s with video_path := some (withSuffix v ".mp4") }
    else s

/-- Model of `RecordingSet.convert_transcript_to_docx` together with
`GdocConverter.convert_to_docx`: on success the converted file is
`with_suffix(".docx")` of the transcript and the set's reference is
updated; on any failure the reference is untouched and `None` is
returned. -/
def convertTranscriptToDocx (env : MoveEnv) (s : RecordingSet) :
    Option String × RecordingSet :=
  match s.transcript_path with
  | none => (none, s)
  | some t =>
    if suffixLower t == ".gdoc" then
      if env.convertOk then
        let p := withSuffix t ".docx"
        (some p, { s with transcript_path := some p })
      else (none, s)
    else (none, s)

/-- Result of `move_to`: the (mutated) set, the returned success flag, the
moves that were attempted (role label and source path, in attempt order),
whether the final unlink was attempted, and whether the original `.gdoc`
was actually deleted. -/
structure MoveResult where
  set : RecordingSet
  success : Bool
  attempted : List (String × String)
  unlinkAttempted : Bool
  deleted : Bool

/-- The `if self.video_path: self.ensure_video_extension()` guard at the
top of `move_to`. -/
def stepA (env : MoveEnv) (s : RecordingSet) : RecordingSet :=
  match s.video_path with
  | some _ => ensureVideoExtension env s
  | none => s

/-- The `original_gdoc_path` variable of `move_to`: the transcript when it
is present with a `.gdoc` suffix, otherwise `None`. -/
def gdocOf (s : RecordingSet) : Option String :=
  match s.transcript_path with
  | some t => if suffixLower t == ".gdoc" then some t else none
  | none => none

/-- The conversion branch of `move_to`: run the converter exactly when
`original_gdoc_path` was set. -/
def stepB (env : MoveEnv) (s : RecordingSet) : Option String × RecordingSet :=
  match gdocOf s with
  | some _ => convertTranscriptToDocx env s
  | none => (none, s)

/-- Model of `RecordingSet.move_to` (directory creation, which the code
does not guard, is outside the claims and modelled as succeeding). -/
def move_to (env : MoveEnv) (s : RecordingSet) : MoveResult :=
  let s1 := stepA env s
  let gdocCase := gdocOf s1
  let conv := stepB env s1
  let s2 := conv.2
  let success1 : Bool := match gdocCase with
    | some _ => conv.1.isSome
    | none => true
  let files :=
    (match s2.video_path with | some v => [("動画", v)] | none => [])
      ++ (match s2.transcript_path with | some t => [("議事録", t)] | none => [])
      ++ (match s2.chat_path with | some c => [("チャット", c)] | none => [])
  let success2 := files.foldl
    (fun acc f => if env.moveOk f.2 then acc else false) success1
  let ua := gdocCase.isSome && success2
  ⟨s2, success2, files, ua, ua && env.unlinkOk⟩

/-- The present members of a set in role order video, transcript, chat:
the claim-side description of the move list. -/
def presentMembers (s : RecordingSet) : List (String × String) :=
  (match s.video_path with | some v => [("動画", v)] | none => [])
    ++ (match s.transcript_path with | some t => [("議事録", t)] | none => [])
    ++ (match s.chat_path with | some c => [("チャット", c)] | none => [])

/-- Whether the transcript conversion step runs for a set: a present
transcript whose lower-cased suffix is `.gdoc`. -/
def gdocTranscript (s : RecordingSet) : Bool :=
  match s.transcript_path with
  | some t => suffixLower t == ".gdoc"
  | none => false

/-! ## Helper lemmas about the move pipeline -/

theorem ensureVideo_transcript (env : MoveEnv) (s : RecordingSet) :
    (ensureVideoExtension env s).transcript_path = s.transcript_path := by
  unfold ensureVideoExtension
  cases s.video_path
  · rfl
  · repeat' split
    all_goals rfl

theorem ensureVideo_chat (env : MoveEnv) (s : RecordingSet) :
    (ensureVideoExtension env s).chat_path = s.chat_path := by
  unfold ensureVideoExtension
  cases s.video_path
  · rfl
  · repeat' split
    all_goals rfl

theorem stepA_transcript (env : MoveEnv) (s : RecordingSet) :
    (stepA env s).transcript_path = s.transcript_path := by
  unfold stepA
  cases s.video_path
  · rfl
  · exact ensureVideo_transcript env s

theorem stepA_chat (env : MoveEnv) (s : RecordingSet) :
    (stepA env s).chat_path = s.chat_path := by
  unfold stepA
  cases s.video_path
  · rfl
  · exact ensureVideo_chat env s

theorem gdocOf_isSome (s : RecordingSet) :
    (gdocOf s).isSome = gdocTranscript s := by
  unfold gdocOf gdocTranscript
  cases s.transcript_path with
  | none => rfl
  | some t => by_cases h : (suffixLower t == ".gdoc") = true <;> simp [h]

theorem gdocOf_stepA (env : MoveEnv) (s : RecordingSet) :
    gdocOf (stepA env s) = gdocOf s := by
  unfold gdocOf
  rw [stepA_transcript]

theorem gdocOf_some (s : RecordingSet) (u : String)
    (hp : s.transcript_path = some u) :
    gdocOf s = if (suffixLower u == ".gdoc") = true then some u else none := by
  unfold gdocOf
  rw [hp]

theorem gdocOf_eq_some {s : RecordingSet} {t : String}
    (h : gdocOf s = some t) :
    s.transcript_path = some t ∧ suffixLower t = ".gdoc" := by
  cases hp : s.transcript_path with
  | none => unfold gdocOf at h; rw [hp] at h; cases h
  | some u =>
    rw [gdocOf_some s u hp] at h
    by_cases hb : (suffixLower u == ".gdoc") = true
    · rw [if_pos hb] at h
      injection h with h'
      subst h'
      exact ⟨rfl, by simpa using hb⟩
    · rw [if_neg hb] at h
      cases h

theorem gdocOf_of_parts {s : RecordingSet} {t : String}
    (h1 : s.transcript_path = some t) (h2 : suffixLower t = ".gdoc") :
    gdocOf s = some t := by
  unfold gdocOf
  rw [h1]
  simp [h2]

theorem stepB_fst_isSome (env : MoveEnv) (s : RecordingSet) :
    (stepB env s).1.isSome = ((gdocOf s).isSome && env.convertOk) := by
  unfold stepB
  cases hg : gdocOf s with
  | none => simp
  | some t =>
    obtain ⟨hp, hs⟩ := gdocOf_eq_some hg
    unfold convertTranscriptToDocx
    rw [hp]
    cases hc : env.convertOk <;> simp [hs, hc]

theorem stepB_keeps_transcript_on_failure (env : MoveEnv) (s : RecordingSet)
    (h : env.convertOk = false) : (stepB env s).2 = s := by
  unfold stepB
  cases hg : gdocOf s with
  | none => rfl
  | some t =>
    obtain ⟨hp, hs⟩ := gdocOf_eq_some hg
    unfold convertTranscriptToDocx
    rw [hp]
    simp [hs, h]

theorem stepB_transcript_on_success (env : MoveEnv) (s : RecordingSet)
    (t : String) (h1 : s.transcript_path = some t)
    (h2 : suffixLower t = ".gdoc") (h3 : env.convertOk = true) :
    (stepB env s).2.transcript_path = some (withSuffix t ".docx") := by
  unfold stepB
  rw [gdocOf_of_parts h1 h2]
  unfold convertTranscriptToDocx
  rw [h1]
  simp [h2, h3]

/-- Closed form of the move loop: the accumulated flag is the initial one
conjoined with per-file move success. -/
theorem foldl_moves (mv : String → Bool) :
    ∀ (l : List (String × String)) (init : Bool),
      l.foldl (fun acc f => if mv f.2 then acc else false) init
        = (init && l.all fun f => mv f.2)
  | [], init => by simp
  | f :: rest, init => by
    simp only [List.foldl_cons, List.all_cons, foldl_moves mv rest]
    by_cases h : mv f.2 = true <;> simp [h]

theorem move_to_set (env : MoveEnv) (s : RecordingSet) :
    (move_to env s).set = (stepB env (stepA env s)).2 := rfl

theorem move_to_attempted (env : MoveEnv) (s : RecordingSet) :
    (move_to env s).attempted = presentMembers (move_to env s).set := rfl

theorem move_to_deleted_eq (env : MoveEnv) (s : RecordingSet) :
    (move_to env s).deleted = ((move_to env s).unlinkAttempted && env.unlinkOk) :=
  rfl

theorem move_to_success (env : MoveEnv) (s : RecordingSet) :
    (move_to env s).success
      = (((move_to env s).attempted.all fun f => env.moveOk f.2)
          && (!gdocTranscript s || env.convertOk)) := by
  unfold move_to
  simp only [foldl_moves, gdocOf_stepA]
  cases hg : gdocOf s with
  | none =>
    have hgt : gdocTranscript s = false := by rw [← gdocOf_isSome, hg]; rfl
    simp [hgt]
  | some t =>
    have hgt : gdocTranscript s = true := by rw [← gdocOf_isSome, hg]; rfl
    have hb := stepB_fst_isSome env (stepA env s)
    rw [gdocOf_stepA, hg] at hb
    simp only [Option.isSome_some, Bool.true_and] at hb
    simp [hgt, hb, Bool.and_comm]

theorem move_to_ua (env : MoveEnv) (s : RecordingSet) :
    (move_to env s).unlinkAttempted
      = (gdocTranscript s && (move_to env s).success) := by
  simp only [move_to]
  rw [gdocOf_stepA, gdocOf_isSome]

/-! ## Claims about the move pipeline -/

/-- C4: for every recording set, `move_to` attempts each present member in
the order video, transcript, chat; which moves are attempted does not
depend on any move's outcome (a failed move never prevents the remaining
attempts); and the returned flag is success exactly when every attempted
move succeeded and, when the transcript conversion ran, the conversion
succeeded. -/
theorem move_to_best_effort_and_result (env : MoveEnv) (s : RecordingSet) :
    (move_to env s).attempted = presentMembers (move_to env s).set
      ∧ (∀ f : String → Bool,
          (move_to { env with moveOk := f } s).attempted
            = (move_to env s).attempted)
      ∧ (move_to env s).success
          = (((move_to env s).attempted.all fun f => env.moveOk f.2)
              && (!gdocTranscript s || env.convertOk)) :=
  ⟨move_to_attempted env s, fun _ => rfl, move_to_success env s⟩

/-- C5: when the transcript member is a `.gdoc` file and the converter
fails, the set still references the original transcript file afterwards
and the overall move outcome is failure; the model is a total function,
so the failure cannot crash the run. -/
theorem conversion_failure_keeps_original_and_fails
    (env : MoveEnv) (s : RecordingSet) (t : String)
    (h1 : s.transcript_path = some t) (h2 : suffixLower t = ".gdoc")
    (h3 : env.convertOk = false) :
    (move_to env s).set.transcript_path = some t
      ∧ (move_to env s).success = false := by
  have hset : (move_to env s).set = stepA env s := by
    rw [move_to_set, stepB_keeps_transcript_on_failure env _ h3]
  have hg : gdocTranscript s = true := by
    rw [← gdocOf_isSome, gdocOf_of_parts h1 h2]
    rfl
  constructor
  · rw [hset, stepA_transcript, h1]
  · rw [move_to_success]
    simp [hg, h3]

/-- Witness for the C5 theorem at a concrete environment and set. -/
theorem conversion_failure_keeps_original_and_fails_w :
    (move_to ⟨true, false, fun _ => true, true⟩
        ⟨"p", some "v.mp4", some "t.gdoc", none, none⟩).set.transcript_path
        = some "t.gdoc"
      ∧ (move_to ⟨true, false, fun _ => true, true⟩
          ⟨"p", some "v.mp4", some "t.gdoc", none, none⟩).success = false :=
  conversion_failure_keeps_original_and_fails
    ⟨true, false, fun _ => true, true⟩
    ⟨"p", some "v.mp4", some "t.gdoc", none, none⟩
    "t.gdoc" rfl (by decide) rfl

/-- C6: when the transcript member is a `.gdoc` file and the conversion
succeeds, the post-pipeline set references the converted `.docx` path;
the original `.gdoc` deletion is attempted exactly when the overall
result is success, actually happens exactly when additionally the unlink
call succeeds, and the unlink outcome never changes the overall result. -/
theorem conversion_success_docx_and_cleanup
    (env : MoveEnv) (s : RecordingSet) (t : String)
    (h1 : s.transcript_path = some t) (h2 : suffixLower t = ".gdoc")
    (h3 : env.convertOk = true) :
    (move_to env s).set.transcript_path = some (withSuffix t ".docx")
      ∧ (move_to env s).unlinkAttempted = (move_to env s).success
      ∧ (move_to env s).deleted = ((move_to env s).success && env.unlinkOk)
      ∧ ∀ b : Bool,
          (move_to { env with unlinkOk := b } s).success
            = (move_to env s).success := by
  have hg : gdocTranscript s = true := by
    rw [← gdocOf_isSome, gdocOf_of_parts h1 h2]
    rfl
  have hua : (move_to env s).unlinkAttempted = (move_to env s).success := by
    rw [move_to_ua, hg]
    simp
  refine ⟨?_, hua, ?_, fun b => rfl⟩
  · rw [move_to_set]
    exact stepB_transcript_on_success env (stepA env s) t
      (by rw [stepA_transcript, h1]) h2 h3
  · rw [move_to_deleted_eq, hua]

/-- Witness for the C6 theorem at a concrete environment and set. -/
theorem conversion_success_docx_and_cleanup_w :
    (move_to ⟨true, true, fun _ => true, false⟩
        ⟨"p", some "v.mp4", some "t.gdoc", none, none⟩).set.transcript_path
        = some (withSuffix "t.gdoc" ".docx")
      ∧ (move_to ⟨true, true, fun _ => true, false⟩
          ⟨"p", some "v.mp4", some "t.gdoc", none, none⟩).unlinkAttempted
          = (move_to ⟨true, true, fun _ => true, false⟩
              ⟨"p", some "v.mp4", some "t.gdoc", none, none⟩).success
      ∧ (move_to ⟨true, true, fun _ => true, false⟩
          ⟨"p", some "v.mp4", some "t.gdoc", none, none⟩).deleted
          = ((move_to ⟨true, true, fun _ => true, false⟩
              ⟨"p", some "v.mp4", some "t.gdoc", none, none⟩).success && false)
      ∧ ∀ b : Bool,
          (move_to ⟨true, true, fun _ => true, b⟩
              ⟨"p", some "v.mp4", some "t.gdoc", none, none⟩).success
            = (move_to ⟨true, true, fun _ => true, false⟩
                ⟨"p", some "v.mp4", some "t.gdoc", none, none⟩).success :=
  conversion_success_docx_and_cleanup
    ⟨true, true, fun _ => true, false⟩
    ⟨"p", some "v.mp4", some "t.gdoc", none, none⟩
    "t.gdoc" rfl (by decide) rfl

/-- C9: when the transcript is a `.gdoc` file and the conversion fails,
the original `.gdoc` file is still among the attempted moves (the
transcript reference is unchanged, so it stays in the move list), even
though the overall result is reported as failure. -/
theorem conversion_failure_still_moves_gdoc
    (env : MoveEnv) (s : RecordingSet) (t : String)
    (h1 : s.transcript_path = some t) (h2 : suffixLower t = ".gdoc")
    (h3 : env.convertOk = false) :
    ("議事録", t) ∈ (move_to env s).attempted
      ∧ (move_to env s).success = false := by
  have hset : (move_to env s).set = stepA env s := by
    rw [move_to_set, stepB_keeps_transcript_on_failure env _ h3]
  have hg : gdocTranscript s = true := by
    rw [← gdocOf_isSome, gdocOf_of_parts h1 h2]
    rfl
  constructor
  · rw [move_to_attempted, hset]
    unfold presentMembers
    rw [stepA_transcript, h1]
    simp
  · rw [move_to_success]
    simp [hg, h3]

/-- Witness for the C9 theorem at a concrete environment and set. -/
theorem conversion_failure_still_moves_gdoc_w :
    ("議事録", "t.gdoc")
        ∈ (move_to ⟨true, false, fun _ => true, true⟩
            ⟨"p", some "v.mp4", some "t.gdoc", some "c.txt", none⟩).attempted
      ∧ (move_to ⟨true, false, fun _ => true, true⟩
          ⟨"p", some "v.mp4", some "t.gdoc", some "c.txt", none⟩).success
          = false :=
  conversion_failure_still_moves_gdoc
    ⟨true, false, fun _ => true, true⟩
    ⟨"p", some "v.mp4", some "t.gdoc", some "c.txt", none⟩
    "t.gdoc" rfl (by decide) rfl

/-! ## Claims about the scanner -/

/-- C1: every recording set in the scan output has a video member; a
prefix group whose classification assigns no video role (here one with a
chat member and a transcript member) produces no recording set at all. -/
theorem sets_always_have_video (files : List String) :
    ((groupFiles files).all fun s => s.video_path.isSome) = true
      ∧ ((scan (some files)).all fun s => s.video_path.isSome) = true
      ∧ groupFiles ["X～Chat.txt", "X memo.gdoc"] = [] := by
  have hg : ((groupFiles files).all fun s => s.video_path.isSome) = true := by
    refine List.all_eq_true.mpr fun s hs => ?_
    unfold groupFiles at hs
    exact (List.mem_filter.mp hs).2
  refine ⟨hg, ?_, by decide⟩
  refine List.all_eq_true.mpr fun s hs => ?_
  have hmem : s ∈ groupFiles files :=
    (List.perm_insertionSort keyLe (groupFiles files)).mem_iff.mp hs
  exact List.all_eq_true.mp hg s hmem

/-- C3, behaviour of the code at the failing input: with two files of one
identity both qualifying for the video role, the classifier keeps the one
seen last in scan order; reversing the scan order changes the choice, the
lexicographically smaller path "P～Recording1.mp4" is not picked when it
comes first, and no diagnostic of the conflict exists anywhere in the
result. -/
theorem role_conflict_last_seen_wins :
    groupFiles ["P～Recording1.mp4", "P～Recording2.mp4"]
        = [⟨"P", some "P～Recording2.mp4", none, none, none⟩]
      ∧ groupFiles ["P～Recording2.mp4", "P～Recording1.mp4"]
        = [⟨"P", some "P～Recording1.mp4", none, none, none⟩] := by
  decide

/-- C7 counterexample: a missing source root is not surfaced as a hard
stop — the scan returns the empty list, exactly the value produced for an
existing empty source directory. -/
theorem missing_source_same_as_empty : scan none = scan (some []) := rfl

/-- C7 amended: when the source root does not exist, the scan logs an
error and completes normally with the empty list. -/
theorem missing_source_returns_empty : scan none = [] := rfl

/-! ## Claims about timestamp extraction -/

/-- Whether some position of the identity begins a well-formed,
calendar-valid date pattern (the claim-side notion of "contains a
well-formed date pattern"). -/
def hasValidDatePattern (s : String) : Bool :=
  (List.range (s.data.length + 1)).any fun i =>
    match matchDateAt (s.data.drop i) with
    | some (y, mo, d, h, mi) => decide (ValidD ⟨y, mo, d, h, mi⟩)
    | none => false

/-- C8 counterexample: this identity contains the well-formed and
calendar-valid pattern "2024 05 01 10/30", yet extraction fails, because
the leftmost match of the regex is "2024 13 01 10:30", whose month 13 the
`datetime` constructor rejects. -/
theorem date_containment_insufficient :
    hasValidDatePattern "2024 13 01 10:30 2024 05 01 10/30" = true
      ∧ extractDate "2024 13 01 10:30 2024 05 01 10/30" = none := by
  decide

/-- C8 amended: whenever the leftmost date-pattern match in the identity
has calendar-valid values, timestamp extraction succeeds with exactly
those values; and extraction is separator-insensitive — the identities
"2024 05 01 10:30" and "2024 05 01 10/30" yield the identical
timestamp. -/
theorem extraction_of_valid_first_match (s : String) (y mo d h mi : Nat)
    (hfind : findDate s.data = some (y, mo, d, h, mi))
    (hvalid : ValidD ⟨y, mo, d, h, mi⟩) :
    extractDate s = some ⟨y, mo, d, h, mi⟩
      ∧ extractDate "2024 05 01 10:30" = extractDate "2024 05 01 10/30"
      ∧ extractDate "2024 05 01 10:30" = some ⟨2024, 5, 1, 10, 30⟩ := by
  refine ⟨?_, by decide, by decide⟩
  unfold extractDate
  rw [hfind]
  simp [hvalid]

/-- Witness for the C8 amended theorem at a concrete identity. -/
theorem extraction_of_valid_first_match_w :
    extractDate "2024 05 01 10/30" = some ⟨2024, 5, 1, 10, 30⟩
      ∧ extractDate "2024 05 01 10:30" = extractDate "2024 05 01 10/30"
      ∧ extractDate "2024 05 01 10:30" = some ⟨2024, 5, 1, 10, 30⟩ :=
  extraction_of_valid_first_match "2024 05 01 10/30" 2024 5 1 10 30
    (by decide) (by decide)

/-! ## Claim about grouping by substring containment -/

theorem classifyStep_video_sound (pfx : String) (acc : RoleAcc)
    (name : String) :
    (classifyStep pfx acc name).video = acc.video
      ∨ ((classifyStep pfx acc name).video = some name
          ∧ containsSub name pfx = true) := by
  unfold classifyStep
  split
  · split
    · right
      exact ⟨rfl, by assumption⟩
    · split
      · left
        rfl
      · split
        · left
          rfl
        · left
          rfl
  · left
    rfl

theorem foldl_video_sound (pfx : String) :
    ∀ (files : List String) (acc : RoleAcc) (v : String),
      (files.foldl (classifyStep pfx) acc).video = some v →
        acc.video = some v ∨ (containsSub v pfx = true ∧ v ∈ files)
  | [], _, _, h => Or.inl h
  | f :: rest, acc, v, h => by
    rcases foldl_video_sound pfx rest (classifyStep pfx acc f) v h with h' | h'
    · rcases classifyStep_video_sound pfx acc f with h2 | ⟨h2, h3⟩
      · left
        rw [← h2]
        exact h'
      · rw [h2] at h'
        injection h' with h4
        subst h4
        right
        exact ⟨h3, List.mem_cons_self f rest⟩
    · right
      exact ⟨h'.1, List.mem_cons_of_mem f h'.2⟩

/-- C10: grouping membership is substring containment, not identity
equality — any file assigned the video role of prefix P's group has P
occurring somewhere in its name; and concretely the file of identity
"AB" fills the video role of both set "A" and set "AB" in one scan, so a
set's member need not have the set's identity. -/
theorem grouping_is_substring_containment :
    (∀ (pfx : String) (files : List String) (v : String),
        (classifyGroup pfx files).video = some v →
          containsSub v pfx = true ∧ v ∈ files)
      ∧ (⟨"A", some "AB～Recording.mp4", none, none, none⟩ : RecordingSet)
          ∈ groupFiles ["A～Recording.mp4", "AB～Recording.mp4"]
      ∧ (⟨"AB", some "AB～Recording.mp4", none, none, none⟩ : RecordingSet)
          ∈ groupFiles ["A～Recording.mp4", "AB～Recording.mp4"]
      ∧ extractPrefix "AB～Recording.mp4" = some "AB" := by
  refine ⟨?_, by decide, by decide, by decide⟩
  intro pfx files v h
  rcases foldl_video_sound pfx files ⟨none, none, none⟩ v h with h' | h'
  · cases h'
  · exact h'

/-- Witness for the C10 theorem: the general containment statement at the
cross-set input. -/
theorem grouping_is_substring_containment_w :
    containsSub "AB～Recording.mp4" "A" = true
      ∧ "AB～Recording.mp4" ∈ ["A～Recording.mp4", "AB～Recording.mp4"] :=
  grouping_is_substring_containment.1 "A"
    ["A～Recording.mp4", "AB～Recording.mp4"] "AB～Recording.mp4" (by decide)

/-! ## Chronological order of datetimes

The code sorts by `datetime.timestamp()`.  `toMinutes` is the
order-preserving model of that value; the lemmas below relate it to the
chronological (lexicographic) order on valid datetime fields, which is
what the specification's "later timestamp" means. -/

/-- Chronological strict order on datetime values: lexicographic on
year, month, day, hour, minute. -/
def DateTime.lexLt (a b : DateTime) : Prop :=
  a.year < b.year
    ∨ (a.year = b.year ∧ (a.month < b.month
      ∨ (a.month = b.month ∧ (a.day < b.day
        ∨ (a.day = b.day ∧ (a.hour < b.hour
          ∨ (a.hour = b.hour ∧ a.minute < b.minute)))))))

instance (a b : DateTime) : Decidable (DateTime.lexLt a b) := by
  unfold DateTime.lexLt
  infer_instance

theorem daysInMonth_pos (y m : Nat) : 1 ≤ daysInMonth y m := by
  unfold daysInMonth
  split
  · split <;> omega
  · split <;> omega

theorem daysBeforeMonth_succ (y : Nat) :
    ∀ m : Nat, 1 ≤ m →
      daysBeforeMonth y (m + 1) = daysBeforeMonth y m + daysInMonth y m
  | _ + 1, _ => rfl

theorem daysBeforeMonth_mono (y : Nat) {m1 m2 : Nat} (h1 : 1 ≤ m1)
    (h : m1 ≤ m2) : daysBeforeMonth y m1 ≤ daysBeforeMonth y m2 := by
  induction h with
  | refl => exact le_rfl
  | @step m h ih =>
    have hm : 1 ≤ m := le_trans h1 h
    rw [daysBeforeMonth_succ y m hm]
    exact le_trans ih (Nat.le_add_right _ _)

theorem daysBeforeMonth_13 (y : Nat) :
    daysBeforeMonth y 13 = 337 + daysInMonth y 2 := by
  show 0 + 31 + daysInMonth y 2 + 31 + 30 + 31 + 30 + 31 + 31 + 30 + 31
      + 30 + 31 = 337 + daysInMonth y 2
  omega

theorem dayOfYear_lt (y m d : Nat) (h1 : 1 ≤ m) (h2 : m ≤ 12)
    (h3 : 1 ≤ d) (h4 : d ≤ daysInMonth y m) :
    daysBeforeMonth y m + (d - 1) < daysBeforeMonth y 13 :=
  calc daysBeforeMonth y m + (d - 1)
      < daysBeforeMonth y m + daysInMonth y m := by omega
    _ = daysBeforeMonth y (m + 1) := (daysBeforeMonth_succ y m h1).symm
    _ ≤ daysBeforeMonth y 13 := daysBeforeMonth_mono y (by omega) (by omega)

theorem isLeap_iff (y : Nat) :
    isLeap y = true ↔ (y % 4 = 0 ∧ (y % 100 ≠ 0 ∨ y % 400 = 0)) := by
  unfold isLeap
  simp [Bool.and_eq_true, Bool.or_eq_true, beq_iff_eq, bne_iff_ne]

set_option maxHeartbeats 1000000 in
theorem daysBeforeYear_succ (y : Nat) (hy : 1 ≤ y) :
    daysBeforeYear (y + 1) = daysBeforeYear y + daysBeforeMonth y 13 := by
  rw [daysBeforeMonth_13]
  have h2 : daysInMonth y 2 = if isLeap y then 29 else 28 := by
    unfold daysInMonth
    simp
  rw [h2]
  unfold daysBeforeYear
  cases hl : isLeap y with
  | false =>
    have hprop : ¬(y % 4 = 0 ∧ (y % 100 ≠ 0 ∨ y % 400 = 0)) := by
      rw [← isLeap_iff, hl]
      simp
    simp only [Bool.false_eq_true, if_false]
    omega
  | true =>
    have hprop : y % 4 = 0 ∧ (y % 100 ≠ 0 ∨ y % 400 = 0) := (isLeap_iff y).mp hl
    simp only [eq_self_iff_true, if_true]
    omega

theorem daysBeforeYear_succ_le (y : Nat) :
    daysBeforeYear y ≤ daysBeforeYear (y + 1) := by
  unfold daysBeforeYear
  omega

theorem daysBeforeYear_mono {y1 y2 : Nat} (h : y1 ≤ y2) :
    daysBeforeYear y1 ≤ daysBeforeYear y2 := by
  induction h with
  | refl => exact le_rfl
  | @step m _ ih => exact le_trans ih (daysBeforeYear_succ_le m)

theorem dayNumber_lt_of_lex {a b : DateTime} (ha : ValidD a) (hb : ValidD b)
    (h : a.year < b.year
      ∨ (a.year = b.year ∧ (a.month < b.month
        ∨ (a.month = b.month ∧ a.day < b.day)))) :
    dayNumber a < dayNumber b := by
  obtain ⟨ha1, ha2, ha3, ha4, ha5, ha6, ha7, ha8⟩ := ha
  obtain ⟨hb1, hb2, hb3, hb4, hb5, hb6, hb7, hb8⟩ := hb
  unfold dayNumber
  rcases h with hy | ⟨hy, h⟩
  · have hdoy := dayOfYear_lt a.year a.month a.day ha3 ha4 ha5 ha6
    have hsucc := daysBeforeYear_succ a.year ha1
    have hmono := daysBeforeYear_mono (show a.year + 1 ≤ b.year by omega)
    omega
  · have hdim : daysInMonth a.year a.month = daysInMonth b.year a.month := by
      rw [hy]
    rcases h with hm | ⟨hm, hd⟩
    · have hstep : daysBeforeMonth b.year a.month + daysInMonth b.year a.month
          = daysBeforeMonth b.year (a.month + 1) :=
        (daysBeforeMonth_succ b.year a.month ha3).symm
      have hmono : daysBeforeMonth b.year (a.month + 1)
          ≤ daysBeforeMonth b.year b.month :=
        daysBeforeMonth_mono b.year (by omega) (by omega)
      rw [hy]
      omega
    · rw [hy, hm]
      omega

theorem toMinutes_lt_of_lexLt {a b : DateTime} (ha : ValidD a)
    (hb : ValidD b) (h : DateTime.lexLt a b) : toMinutes a < toMinutes b := by
  have ha' := ha
  have hb' := hb
  obtain ⟨ha1, ha2, ha3, ha4, ha5, ha6, ha7, ha8⟩ := ha'
  obtain ⟨hb1, hb2, hb3, hb4, hb5, hb6, hb7, hb8⟩ := hb'
  unfold DateTime.lexLt at h
  unfold toMinutes
  rcases h with hy | ⟨hy, hm | ⟨hm, hd | ⟨hd, h'⟩⟩⟩
  · have := dayNumber_lt_of_lex ha hb (Or.inl hy)
    omega
  · have := dayNumber_lt_of_lex ha hb (Or.inr ⟨hy, Or.inl hm⟩)
    omega
  · have := dayNumber_lt_of_lex ha hb (Or.inr ⟨hy, Or.inr ⟨hm, hd⟩⟩)
    omega
  · have hdn : dayNumber a = dayNumber b := by
      unfold dayNumber
      rw [hy, hm, hd]
    rcases h' with hh | ⟨hh, hmi⟩
    · omega
    · omega

theorem lexLt_trichotomy (a b : DateTime) :
    DateTime.lexLt a b ∨ a = b ∨ DateTime.lexLt b a := by
  obtain ⟨y1, m1, d1, h1, n1⟩ := a
  obtain ⟨y2, m2, d2, h2, n2⟩ := b
  unfold DateTime.lexLt
  simp only [DateTime.mk.injEq]
  omega

theorem toMinutes_inj {a b : DateTime} (ha : ValidD a) (hb : ValidD b)
    (h : toMinutes a = toMinutes b) : a = b := by
  rcases lexLt_trichotomy a b with hl | he | hl
  · exact absurd h (Nat.ne_of_lt (toMinutes_lt_of_lexLt ha hb hl))
  · exact he
  · exact absurd h.symm (Nat.ne_of_lt (toMinutes_lt_of_lexLt hb ha hl))

theorem toMinutes_lt_iff {a b : DateTime} (ha : ValidD a) (hb : ValidD b) :
    toMinutes a < toMinutes b ↔ DateTime.lexLt a b := by
  constructor
  · intro h
    rcases lexLt_trichotomy a b with hl | he | hl
    · exact hl
    · subst he
      omega
    · have := toMinutes_lt_of_lexLt hb ha hl
      omega
  · exact toMinutes_lt_of_lexLt ha hb

/-! ## The scan ordering claim -/

theorem keyFst_of_none {s : RecordingSet} (h : s.date = none) :
    keyFst s = none := by
  unfold keyFst
  rw [h]

theorem keyFst_of_some {s : RecordingSet} {d : DateTime}
    (h : s.date = some d) : keyFst s = some (-(toMinutes d : Int)) := by
  unfold keyFst
  rw [h]

theorem fstLt_trichotomy (a b : Option Int) :
    fstLt a b ∨ a = b ∨ fstLt b a := by
  match a, b with
  | none, none => exact Or.inr (Or.inl rfl)
  | none, some y => exact Or.inr (Or.inr trivial)
  | some x, none => exact Or.inl trivial
  | some x, some y =>
    rcases lt_trichotomy x y with h | h | h
    · exact Or.inl h
    · exact Or.inr (Or.inl (by rw [h]))
    · exact Or.inr (Or.inr h)

theorem fstLt_trans {a b c : Option Int} (h1 : fstLt a b) (h2 : fstLt b c) :
    fstLt a c := by
  match a, b, c with
  | some x, some y, some z => exact lt_trans h1 h2
  | some x, some y, none => trivial
  | some x, none, _ => exact h2.elim
  | none, _, _ => exact h1.elim

instance : IsTotal RecordingSet keyLe :=
  ⟨by
    intro s t
    rcases fstLt_trichotomy (keyFst s) (keyFst t) with h | h | h
    · exact Or.inl (Or.inl h)
    · rcases le_total s.prefix_ t.prefix_ with hp | hp
      · exact Or.inl (Or.inr ⟨h, hp⟩)
      · exact Or.inr (Or.inr ⟨h.symm, hp⟩)
    · exact Or.inr (Or.inl h)⟩

instance : IsTrans RecordingSet keyLe :=
  ⟨by
    intro s t u h1 h2
    rcases h1 with h1 | ⟨h1e, h1p⟩
    · rcases h2 with h2 | ⟨h2e, h2p⟩
      · exact Or.inl (fstLt_trans h1 h2)
      · left
        rw [← h2e]
        exact h1
    · rcases h2 with h2 | ⟨h2e, h2p⟩
      · left
        rw [h1e]
        exact h2
      · exact Or.inr ⟨h1e.trans h2e, le_trans h1p h2p⟩⟩

/-- The ordering claimed by the specification, as a relation between two
sets of the output list: with two timestamps, the later one first, ties
broken by identity ascending; a timestamped set before every set without
a timestamp; two sets without timestamps ordered by identity ascending. -/
def claimLt (s t : RecordingSet) : Prop :=
  match s.date, t.date with
  | some a, some b => DateTime.lexLt b a ∨ (a = b ∧ s.prefix_ < t.prefix_)
  | some _, none => True
  | none, some _ => False
  | none, none => s.prefix_ < t.prefix_

theorem extractDate_eq (s : String) (y mo d h mi : Nat)
    (hf : findDate s.data = some (y, mo, d, h, mi)) :
    extractDate s
      = if ValidD ⟨y, mo, d, h, mi⟩ then some ⟨y, mo, d, h, mi⟩ else none := by
  unfold extractDate
  rw [hf]

theorem extractDate_valid {s : String} {d : DateTime}
    (h : extractDate s = some d) : ValidD d := by
  cases hf : findDate s.data with
  | none =>
    unfold extractDate at h
    rw [hf] at h
    cases h
  | some v =>
    obtain ⟨y, mo, dd, hh, mi⟩ := v
    rw [extractDate_eq s y mo dd hh mi hf] at h
    by_cases hv : ValidD ⟨y, mo, dd, hh, mi⟩
    · rw [if_pos hv] at h
      injection h with h'
      rw [← h']
      exact hv
    · rw [if_neg hv] at h
      cases h

/-- All the claims about one adjacent pair of the sorted output: a key
comparison between two sets with distinct prefixes and valid dates is
exactly the specification's ordering. -/
theorem claimLt_of_keyLe {s t : RecordingSet}
    (hs : ∀ d, s.date = some d → ValidD d)
    (ht : ∀ d, t.date = some d → ValidD d)
    (hne : s.prefix_ ≠ t.prefix_) (h : keyLe s t) : claimLt s t := by
  unfold claimLt
  unfold keyLe at h
  cases hds : s.date with
  | none =>
    rw [keyFst_of_none hds] at h
    cases hdt : t.date with
    | none =>
      rw [keyFst_of_none hdt] at h
      rcases h with h | ⟨-, hp⟩
      · exact h.elim
      · exact lt_of_le_of_ne hp hne
    | some b =>
      rw [keyFst_of_some hdt] at h
      rcases h with h | ⟨he, -⟩
      · exact h.elim
      · exact Option.noConfusion he
  | some a =>
    rw [keyFst_of_some hds] at h
    cases hdt : t.date with
    | none => trivial
    | some b =>
      rw [keyFst_of_some hdt] at h
      have hva := hs a hds
      have hvb := ht b hdt
      rcases h with h | ⟨he, hp⟩
      · left
        have hlt : toMinutes b < toMinutes a := by
          have h' : -(toMinutes a : Int) < -(toMinutes b : Int) := h
          omega
        exact (toMinutes_lt_iff hvb hva).mp hlt
      · right
        have hmm : toMinutes a = toMinutes b := by
          injection he with he'
          omega
        exact ⟨toMinutes_inj hva hvb hmm, lt_of_le_of_ne hp hne⟩

theorem groupFiles_prefixes_pairwise (files : List String) :
    (groupFiles files).Pairwise fun s t => s.prefix_ ≠ t.prefix_ := by
  unfold groupFiles
  apply List.Pairwise.filter
  rw [List.pairwise_map]
  have hnd := List.nodup_dedup ((files.filterMap extractPrefix).filter (· ≠ ""))
  exact hnd.imp fun hab h => hab h

theorem groupFiles_dates_valid (files : List String) {s : RecordingSet}
    (hs : s ∈ groupFiles files) {d : DateTime} (hd : s.date = some d) :
    ValidD d := by
  unfold groupFiles at hs
  have hs' := (List.mem_filter.mp hs).1
  obtain ⟨p, hp, rfl⟩ := List.mem_map.mp hs'
  have hdate : extractDate p = some d := hd
  exact extractDate_valid hdate

/-- C2: the scan output is sorted by the strict total order of the
specification — between two timestamped sets the later timestamp comes
first and equal timestamps are broken by identity ascending; every
timestamped set precedes every set without a timestamp; sets without
timestamps are ordered by identity ascending. -/
theorem scan_sorted_total_order (files : List String) :
    (scan (some files)).Pairwise claimLt := by
  have hsorted : (scan (some files)).Pairwise keyLe :=
    List.sorted_insertionSort keyLe (groupFiles files)
  have hperm : (scan (some files)).Perm (groupFiles files) :=
    List.perm_insertionSort keyLe (groupFiles files)
  have hne : (scan (some files)).Pairwise fun s t => s.prefix_ ≠ t.prefix_ :=
    (hperm.pairwise_iff fun h => h.symm).mpr
      (groupFiles_prefixes_pairwise files)
  refine List.Pairwise.imp_of_mem ?_ (hsorted.and hne)
  intro a b ha hb hab
  exact claimLt_of_keyLe
    (fun d hd => groupFiles_dates_valid files (hperm.mem_iff.mp ha) hd)
    (fun d hd => groupFiles_dates_valid files (hperm.mem_iff.mp hb) hd)
    hab.2 hab.1

end GoogleMeetRecMover
